import Mathlib

/-!
Verification development for the brother_ql protocol codec and print-queue
state machine (`brother_ql/reader.py`, `brother_ql/print_queue.py`).

Bytes are modelled as `List Nat`; Python exceptions are modelled by the
`PyErr` type and fallible code returns `Except PyErr _`.
-/

/-! ## Definitions: the shallow embedding of the reader codec and the print queue -/

/-- A byte string (Python `bytes`), one `Nat` per byte. -/
abbrev Bytes := List Nat

/-- The Python exception classes that the embedded code can raise. -/
inductive PyErr where
  /-- `NameError`, raised by `interpret_response` for short data / bad magic. -/
  | nameError
  /-- `UnboundLocalError`, reading a local variable that was never assigned. -/
  | unboundLocal
  /-- `KeyError`, a dict lookup with a missing key. -/
  | keyError
  /-- `TypeError`, e.g. `'raster' in None`. -/
  | typeError
  /-- `AssertionError`, from the `assert` in `match_opcode`. -/
  | assertionError
  /-- `AttributeError`, raised by `_validate_status` for a bad request. -/
  | attributeError
  /-- `IndexError`, an out-of-range sequence index. -/
  | indexError
  /-- `ValueError`, raised by `chunker` when `raise_exception` is set. -/
  | valueError
  /-- `RuntimeError`, raised by `queue_image` while printing. -/
  | runtimeError
deriving DecidableEq, Repr

/-- Which of the exception classes above match `except ValueError`.
`NameError` (and its subclass `UnboundLocalError`), `KeyError`, `TypeError`,
`AssertionError`, `AttributeError`, `IndexError` and `RuntimeError` are not
subclasses of `ValueError` in Python. -/
def PyErr.isValueError : PyErr → Bool
  | .nameError => false
  | .unboundLocal => false
  | .keyError => false
  | .typeError => false
  | .assertionError => false
  | .attributeError => false
  | .indexError => false
  | .valueError => true
  | .runtimeError => false

/-- `b.startswith(a)` on lists: `listPre a b` means `a` is a leading segment
of `b`. -/
def listPre {α : Type} [DecidableEq α] : List α → List α → Bool
  | [], _ => true
  | _ :: _, [] => false
  | a :: as, b :: bs => if a = b then listPre as bs else false

/-- Python's `needle in hay` substring test on lists. -/
def containsSeq {α : Type} [DecidableEq α] (needle : List α) : List α → Bool
  | [] => listPre needle []
  | a :: t => listPre needle (a :: t) || containsSeq needle t

/-- One entry of the `OPCODES` dict in `reader.py`: byte signature, opcode
name, number of following bytes (`-1` if variable). The human-readable
description column is not used by any code path and is omitted. -/
structure OpcodeEntry where
  sig : Bytes
  name : List Char
  fixedLen : Int
deriving DecidableEq, Repr

/-- The `OPCODES` table of `reader.py`, in source order. -/
def OPCODES : List OpcodeEntry := [
  ⟨[0x00], "preamble".toList, -1⟩,
  ⟨[0x4D], "compression".toList, 1⟩,
  ⟨[0x67], "raster QL".toList, -1⟩,
  ⟨[0x47], "raster P-touch".toList, -1⟩,
  ⟨[0x77], "2-color raster QL".toList, -1⟩,
  ⟨[0x5a], "zero raster".toList, 0⟩,
  ⟨[0x0C], "print".toList, 0⟩,
  ⟨[0x1A], "print".toList, 0⟩,
  ⟨[0x1b, 0x40], "init".toList, 0⟩,
  ⟨[0x1b, 0x69, 0x61], "mode setting".toList, 1⟩,
  ⟨[0x1b, 0x69, 0x21], "automatic status".toList, 1⟩,
  ⟨[0x1b, 0x69, 0x7A], "media/quality".toList, 10⟩,
  ⟨[0x1b, 0x69, 0x4D], "various".toList, 1⟩,
  ⟨[0x1b, 0x69, 0x41], "cut-every".toList, 1⟩,
  ⟨[0x1b, 0x69, 0x4B], "expanded".toList, 1⟩,
  ⟨[0x1b, 0x69, 0x64], "margins".toList, 2⟩,
  ⟨[0x1b, 0x69, 0x55, 0x77, 0x01], "amedia".toList, 127⟩,
  ⟨[0x1b, 0x69, 0x55, 0x41], "auto_power_off".toList, -1⟩,
  ⟨[0x1b, 0x69, 0x55, 0x4A], "jobid".toList, 14⟩,
  ⟨[0x1b, 0x69, 0x55, 0x70], "auto_power_on".toList, -1⟩,
  ⟨[0x1b, 0x69, 0x58, 0x47], "request_config".toList, 0⟩,
  ⟨[0x1b, 0x69, 0x6B, 0x63], "number_of_copies".toList, 2⟩,
  ⟨[0x1b, 0x69, 0x53], "status request".toList, 0⟩,
  ⟨[0x80, 0x20, 0x42], "status response".toList, 29⟩]

/-- `match_opcode` (`reader.py` lines 229-232): collect the signatures that
are a byte-head of `data`; `assert` exactly one matches and return it
(bundled with its table row, which the callers immediately look up). -/
def match_opcode (data : Bytes) : Except PyErr OpcodeEntry :=
  match OPCODES.filter (fun e => listPre e.sig data) with
  | [e] => .ok e
  | _ => .error .assertionError

/-- The instruction length rule of `chunker` (`reader.py` lines 217-222):
`num_bytes = len(opcode)`, plus `opcode_def[1]` when positive; else for the
QL raster opcodes `data[2] + 2`, and for the P-touch raster opcode
`data[1] + data[2]*256 + 2` (`data` starts at the opcode signature).
Python raises `IndexError` when those header bytes are missing. -/
def numBytes (e : OpcodeEntry) (data : Bytes) : Except PyErr Nat :=
  if 0 < e.fixedLen then .ok (e.sig.length + e.fixedLen.toNat)
  else if e.name = "raster QL".toList ∨ e.name = "2-color raster QL".toList then
    match data[2]? with
    | some v => .ok (e.sig.length + v + 2)
    | none => .error .indexError
  else if e.name = "raster P-touch".toList then
    match data[1]?, data[2]? with
    | some v1, some v2 => .ok (e.sig.length + v1 + v2 * 256 + 2)
    | _, _ => .error .indexError
  else .ok e.sig.length

/-- The loop body of `chunker` (`reader.py` lines 204-226), with fuel.  Each
iteration consumes at least one byte (every signature is nonempty), so fuel
`data.length` makes the fuel-exhaustion branch unreachable.  A failed
`match_opcode` is caught by the bare `except`: with `raise_exception` a
`ValueError` is raised, otherwise one byte is skipped. -/
def chunkerGo (raiseExc : Bool) : Nat → Bytes → Except PyErr (List Bytes)
  | _, [] => .ok []
  | 0, _ :: _ => .ok []
  | fuel + 1, a :: l =>
    match match_opcode (a :: l) with
    | .error _ =>
      if raiseExc then .error .valueError
      else chunkerGo raiseExc fuel l
    | .ok e =>
      match numBytes e (a :: l) with
      | .error err => .error err
      | .ok n =>
        match chunkerGo raiseExc fuel ((a :: l).drop n) with
        | .error err => .error err
        | .ok rest => .ok ((a :: l).take n :: rest)

/-- `chunker(data, raise_exception)` (`reader.py` lines 194-227), as the list
of instruction slices it yields. -/
def chunker (data : Bytes) (raiseExc : Bool) : Except PyErr (List Bytes) :=
  chunkerGo raiseExc data.length data

/-- A well-formed instruction per the Opcode Table: it starts with one of the
registered signatures and its length equals the chunker length rule computed
from its own bytes. -/
def wfInstr (i : Bytes) : Bool :=
  OPCODES.any (fun e =>
    listPre e.sig i && ((numBytes e i).toOption == some i.length))

/-- `RESP_ERROR_INFORMATION_1_DEF` (`reader.py` lines 46-55). -/
def RESP_ERROR_INFORMATION_1_DEF : List (Nat × List Char) := [
  (0, "No media when printing".toList),
  (1, "End of media (die-cut size only)".toList),
  (2, "Tape cutter jam".toList),
  (3, "Weak batteries".toList),
  (4, "Main unit in use (QL-560/650TD/1050)".toList),
  (5, "Printer turned off".toList),
  (6, "High-voltage adapter (not used)".toList),
  (7, "Fan doesn\x27t work (QL-1050/1060N)".toList)]

/-- `RESP_ERROR_INFORMATION_2_DEF` (`reader.py` lines 57-66). -/
def RESP_ERROR_INFORMATION_2_DEF : List (Nat × List Char) := [
  (0, "Replace media error".toList),
  (1, "Expansion buffer full error".toList),
  (2, "Transmission / Communication error".toList),
  (3, "Communication buffer full error (not used)".toList),
  (4, "Cover opened while printing (Except QL-500)".toList),
  (5, "Cancel key (not used) or Overheating error (PT-E550W/P750W/P710BT)".toList),
  (6, "Media cannot be fed (also when the media end is detected)".toList),
  (7, "System error".toList)]

/-- `RESP_MEDIA_TYPES` (`reader.py` lines 68-79). -/
def RESP_MEDIA_TYPES : List (Nat × List Char) := [
  (0x00, "No media".toList),
  (0x01, "Laminated tape".toList),
  (0x03, "Non-laminated type".toList),
  (0x11, "Heat-Shrink Tube (HS 2:1)".toList),
  (0x17, "Heat-Shrink Tube (HS 3:1)".toList),
  (0x0A, "Continuous length tape".toList),
  (0x0B, "Die-cut labels".toList),
  (0x4A, "Continuous length tape".toList),
  (0x4B, "Die-cut labels".toList),
  (0xFF, "Incompatible tape".toList)]

/-- `RESP_MEDIA_CATEGORIES` (`reader.py` lines 81-92). -/
def RESP_MEDIA_CATEGORIES : List (Nat × List Char) := [
  (0x00, "No media".toList),
  (0x01, "TZe".toList),
  (0x03, "TZe".toList),
  (0x11, "TZe".toList),
  (0x17, "TZe".toList),
  (0x0A, "DK".toList),
  (0x0B, "DK".toList),
  (0x4A, "RD".toList),
  (0x4B, "RD".toList),
  (0xFF, "Incompatible".toList)]

/-- `RESP_TAPE_COLORS` (`reader.py` lines 94-125). -/
def RESP_TAPE_COLORS : List (Nat × List Char) := [
  (0x01, "White".toList),
  (0x02, "Other".toList),
  (0x03, "Clear".toList),
  (0x04, "Red".toList),
  (0x05, "Blue".toList),
  (0x06, "Yellow".toList),
  (0x07, "Green".toList),
  (0x08, "Black".toList),
  (0x09, "Clear(White text)".toList),
  (0x20, "Matte White".toList),
  (0x21, "Matte Clear".toList),
  (0x22, "Matte Silver".toList),
  (0x23, "Satin Gold".toList),
  (0x24, "Satin Silver".toList),
  (0x30, "Blue(D)".toList),
  (0x31, "Red(D)".toList),
  (0x40, "Fluorescent Orange".toList),
  (0x41, "Fluorescent Yellow".toList),
  (0x50, "Berry Pink(S)".toList),
  (0x51, "Light Gray(S)".toList),
  (0x52, "Lime Green(S)".toList),
  (0x60, "Yellow(F)".toList),
  (0x61, "Pink(F)".toList),
  (0x62, "Blue(F)".toList),
  (0x70, "White(Heat-shrink Tube)".toList),
  (0x90, "White(Flex. ID)".toList),
  (0x91, "Yellow(Flex. ID)".toList),
  (0xF0, "Clearning".toList),
  (0xF1, "Stencil".toList),
  (0xFF, "Incompatible".toList)]

/-- `RESP_TEXT_COLORS` (`reader.py` lines 127-138). -/
def RESP_TEXT_COLORS : List (Nat × List Char) := [
  (0x01, "White".toList),
  (0x04, "Red".toList),
  (0x05, "Blue".toList),
  (0x08, "Black".toList),
  (0x0A, "Gold".toList),
  (0x62, "Blue(F)".toList),
  (0xF0, "Cleaning".toList),
  (0xF1, "Stencil".toList),
  (0x02, "Other".toList),
  (0xFF, "Incompatible".toList)]

/-- `RESP_STATUS_TYPES` (`reader.py` lines 140-149). -/
def RESP_STATUS_TYPES : List (Nat × List Char) := [
  (0x00, "Reply to status request".toList),
  (0x01, "Printing completed".toList),
  (0x02, "Error occurred".toList),
  (0x03, "Exit IF mode".toList),
  (0x04, "Turned off".toList),
  (0x05, "Notification".toList),
  (0x06, "Phase change".toList),
  (0xF0, "Settings report".toList)]

/-- `RESP_PHASE_TYPES` (`reader.py` lines 151-154). -/
def RESP_PHASE_TYPES : List (Nat × List Char) := [
  (0x00, "Waiting to receive".toList),
  (0x01, "Printing state".toList)]

/-- Python dict lookup `tab[k]` on the code→text tables, as an option. -/
def lookupTab (k : Nat) : List (Nat × List Char) → Option (List Char)
  | [] => none
  | (k2, v) :: t => if k = k2 then some v else lookupTab k t

/-- The error-bit expansion loops of `interpret_response` (`reader.py`
lines 247-254): walk the table in insertion order, keeping the text of each
bit set in the mask. -/
def errsFrom (mask : Nat) (tab : List (Nat × List Char)) : List (List Char) :=
  tab.filterMap (fun p => if mask &&& (1 <<< p.1) ≠ 0 then some p.2 else none)

/-- One row of `ALL_MODELS` (`models.py`), restricted to the fields read by
`interpret_response`: identifier and the two hardware codes. -/
structure ModelEntry where
  identifier : List Char
  series_code : Nat
  model_code : Nat
deriving DecidableEq, Repr

/-- The `ALL_MODELS` table of `models.py`, in source order. -/
def ALL_MODELS : List ModelEntry := [
  ⟨"QL-500".toList, 0x30, 0x4F⟩,
  ⟨"QL-550".toList, 0x30, 0x4F⟩,
  ⟨"QL-560".toList, 0x34, 0x31⟩,
  ⟨"QL-570".toList, 0x34, 0x32⟩,
  ⟨"QL-580N".toList, 0x34, 0x33⟩,
  ⟨"QL-600".toList, 0x34, 0x47⟩,
  ⟨"QL-650TD".toList, 0x30, 0x51⟩,
  ⟨"QL-700".toList, 0x34, 0x35⟩,
  ⟨"QL-710W".toList, 0x34, 0x36⟩,
  ⟨"QL-720NW".toList, 0x34, 0x37⟩,
  ⟨"QL-800".toList, 0x34, 0x38⟩,
  ⟨"QL-810W".toList, 0x34, 0x39⟩,
  ⟨"QL-820NWB".toList, 0x34, 0x41⟩,
  ⟨"QL-1050".toList, 0x30, 0x50⟩,
  ⟨"QL-1060N".toList, 0x34, 0x34⟩,
  ⟨"QL-1100".toList, 0x34, 0x43⟩,
  ⟨"QL-1110NWB".toList, 0x34, 0x44⟩,
  ⟨"QL-1115NWB".toList, 0x34, 0x45⟩,
  ⟨"PT-E550W".toList, 0x30, 0x68⟩,
  ⟨"PT-P700".toList, 0x30, 0x67⟩,
  ⟨"PT-P750W".toList, 0x30, 0x68⟩,
  ⟨"PT-P900W".toList, 0x30, 0x69⟩,
  ⟨"PT-P950NW".toList, 0x30, 0x70⟩]

/-- The printer-model detection loop of `interpret_response` (`reader.py`
lines 296-301): a linear scan of the model table for matching
`(series_code, model_code)`, defaulting to `"Unknown"`.  The
`ElementsManager` iteration it goes through lives in `brother_ql/helpers.py`,
which is not part of this source tree; per the spec it is a plain
iteration of the model table in order. -/
def modelScan (series model : Nat) : List Char :=
  match ALL_MODELS.find? (fun m =>
      series == m.series_code && model == m.model_code) with
  | some m => m.identifier
  | none => "Unknown".toList

/-- The dict returned by `interpret_response` (`reader.py` lines 303-318).
Its keys are exactly the fields below — in particular there is a
`phase_type` entry but no `phase_code` entry.  `phase_type` holds the raw
phase byte (`inl`) when the byte is not in `RESP_PHASE_TYPES`, else the
looked-up name (`inr`). -/
structure Response where
  series_code : Nat
  model_code : Nat
  model : List Char
  status_type : List Char
  status_code : Nat
  phase_type : Sum Nat (List Char)
  media_type : List Char
  media_category : List Char
  tape_color : List Char
  text_color : List Char
  media_width : Nat
  media_length : Nat
  setting : Option Nat
  errors : List (List Char)
deriving DecidableEq, Repr

/-- `interpret_response(data)` (`reader.py` lines 234-319).

Faithfully to the source: a buffer shorter than 32 bytes or without the
`80 20 42` magic raises `NameError` (the code really raises `NameError`,
not `ValueError`); an unknown media code leaves the local `media_type`
unassigned and an unknown status code leaves `status_type` unassigned, so
building the response dict raises `UnboundLocalError` (the `status_type`
dict entry is evaluated first); a `TZe` media category with an unknown
tape or text color code raises `KeyError` at lines 273-274, before the
dict is built. -/
def interpret_response (data : Bytes) : Except PyErr Response := do
  if data.length < 32 then throw .nameError
  if ¬ (listPre [0x80, 0x20, 0x42] data = true) then throw .nameError
  let b := fun i => data.getD i 0
  let series_code := b 3
  let model_code := b 4
  let errors := errsFrom (b 8) RESP_ERROR_INFORMATION_1_DEF ++
    errsFrom (b 9) RESP_ERROR_INFORMATION_2_DEF
  let media_width := b 10
  let media_length := b 17
  let media_code := b 11
  let mediaTypeVar : Option (List Char) := lookupTab media_code RESP_MEDIA_TYPES
  let media_category : List Char :=
    match mediaTypeVar with
    | some _ => (lookupTab media_code RESP_MEDIA_CATEGORIES).getD []
    | none => []
  let tape_color_code := b 24
  let text_color_code := b 25
  let colors ←
    if media_category = "TZe".toList then
      match lookupTab tape_color_code RESP_TAPE_COLORS with
      | none => throw PyErr.keyError
      | some tc =>
        match lookupTab text_color_code RESP_TEXT_COLORS with
        | none => throw PyErr.keyError
        | some xc => pure (tc, xc)
    else pure (([] : List Char), ([] : List Char))
  let status_code := b 18
  let statusTypeVar : Option (List Char) := lookupTab status_code RESP_STATUS_TYPES
  let phase_type : Sum Nat (List Char) :=
    match lookupTab (b 19) RESP_PHASE_TYPES with
    | some n => .inr n
    | none => .inl (b 19)
  let setting : Option Nat := if status_code = 0xF0 then some (b 30) else none
  let model := modelScan series_code model_code
  let status_type ←
    match statusTypeVar with
    | some v => pure v
    | none => throw PyErr.unboundLocal
  let media_type ←
    match mediaTypeVar with
    | some v => pure v
    | none => throw PyErr.unboundLocal
  pure {
    series_code := series_code
    model_code := model_code
    model := model
    status_type := status_type
    status_code := status_code
    phase_type := phase_type
    media_type := media_type
    media_category := media_category
    tape_color := colors.1
    text_color := colors.2
    media_width := media_width
    media_length := media_length
    setting := setting
    errors := errors }

/-- The decompression loop of `BrotherQLReader.analyse` (`reader.py` lines
385-399), recast on the remaining payload suffix, with fuel.  Every step
consumes at least the control byte, so fuel `rpl.length` makes the
fuel-exhaustion branch unreachable.  A control byte with the sign bit set
(`128 ≤ c`, i.e. `num = c - 0x100 < 0`) repeats the next byte
`-num + 1 = 257 - c` times, reading `rpl[index+1]` (an `IndexError` when
absent); otherwise the next `num + 1 = c + 1` bytes are copied verbatim by
a Python slice, which silently truncates at the end of the payload.  The
loop breaks as soon as the payload index passes the end. -/
def rle_decode_go : Nat → Bytes → Except PyErr Bytes
  | _, [] => .ok []
  | 0, _ :: _ => .ok []
  | fuel + 1, c :: rest =>
    if 128 ≤ c then
      match rest with
      | [] => .error .indexError
      | b :: rest2 =>
        match rle_decode_go fuel rest2 with
        | .error err => .error err
        | .ok tail => .ok (List.replicate (257 - c) b ++ tail)
    else
      match rle_decode_go fuel (rest.drop (c + 1)) with
      | .error err => .error err
      | .ok tail => .ok (rest.take (c + 1) ++ tail)

/-- The decoder as invoked on a compressed raster payload.  The source loop
is do-while shaped: it reads `rpl[0]` before any bounds check, so an empty
payload raises `IndexError`. -/
def rle_decode (rpl : Bytes) : Except PyErr Bytes :=
  match rpl with
  | [] => .error .indexError
  | _ :: _ => rle_decode_go rpl.length rpl

/-- Number of leading bytes of the list equal to `b`. -/
def countRun (b : Nat) : Bytes → Nat
  | [] => 0
  | x :: xs => if x = b then countRun b xs + 1 else 0

/-- A reference run-length encoder for the scheme decoded above, with fuel
(`row.length` suffices, every step consumes at least one byte): a run of
`k ∈ [2, 129]` equal bytes becomes the block `[257 - k, b]` (control byte
`257 - k ∈ [128, 255]`, i.e. signed `-(k - 1)`); a byte without a
following run becomes the literal block `[0, b]`. -/
def rle_encode_go : Nat → Bytes → Bytes
  | _, [] => []
  | 0, _ :: _ => []
  | fuel + 1, b :: rest =>
    if 1 ≤ countRun b rest then
      (257 - min (countRun b rest + 1) 129) :: b ::
        rle_encode_go fuel (rest.drop (min (countRun b rest + 1) 129 - 1))
    else
      0 :: b :: rle_encode_go fuel rest

/-- The reference encoder of a whole row. -/
def rle_encode (row : Bytes) : Bytes := rle_encode_go row.length row

def preambleChars : List Char := "preamble".toList

def rasterChars : List Char := "raster".toList

/-- Python's `'raster' in OPCODES[opcode][0]` substring test. -/
def hasRaster (name : List Char) : Bool := containsSeq rasterChars name

/-- The two join tests of the merger loop for a string-valued
`last_opcode`: consecutive preambles (when `join_preamble`) or consecutive
names containing `'raster'` (when `join_raster`). -/
def join2 (jp jr : Bool) (cur last : List Char) : Bool :=
  (jp && cur == preambleChars && last == preambleChars) ||
  (jr && hasRaster cur && hasRaster last)

/-- The loop state of `merge_specific_instructions`: emitted blocks,
`last_opcode` (a name, or `None` before the first instruction) and the
current `instruction_buffer`. -/
structure MState where
  out : List Bytes
  lastOp : Option (List Char)
  buf : Bytes
deriving DecidableEq, Repr

/-- One iteration of the merger loop (`reader.py` lines 330-340).  With
`last_opcode = None` the first branch fails (`None == 'preamble'` is
`False`) and the second evaluates `'raster' in None`, a `TypeError`, as
soon as `join_raster` is set and the current name contains `'raster'`;
otherwise the buffer is flushed if nonempty and restarted. -/
def mergeStep (jp jr : Bool) (st : MState) (instr : Bytes) :
    Except PyErr MState :=
  match match_opcode instr with
  | .error err => .error err
  | .ok e =>
    match st.lastOp with
    | none =>
      if jr && hasRaster e.name then .error .typeError
      else .ok { out := if st.buf.isEmpty then st.out else st.out ++ [st.buf],
                 lastOp := some e.name, buf := instr }
    | some l =>
      if join2 jp jr e.name l then
        .ok { out := st.out, lastOp := some e.name, buf := st.buf ++ instr }
      else
        .ok { out := if st.buf.isEmpty then st.out else st.out ++ [st.buf],
              lastOp := some e.name, buf := instr }

/-- The merger loop over all chunks. -/
def mergeFold (jp jr : Bool) : List Bytes → MState → Except PyErr MState
  | [], st => .ok st
  | c :: cs, st =>
    match mergeStep jp jr st c with
    | .error err => .error err
    | .ok st2 => mergeFold jp jr cs st2

/-- `merge_specific_instructions(chunks, join_preamble, join_raster)`
(`reader.py` lines 322-343): run the loop from the empty state and flush
the final nonempty buffer. -/
def merge_specific_instructions (chunks : List Bytes) (jp jr : Bool) :
    Except PyErr (List Bytes) :=
  match mergeFold jp jr chunks ⟨[], none, []⟩ with
  | .error err => .error err
  | .ok st => .ok (if st.buf.isEmpty then st.out else st.out ++ [st.buf])

/-- The opcode name a block resolves to (junk when it does not match). -/
def clsOf (B : Bytes) : List Char :=
  match match_opcode B with
  | .ok e => e.name
  | .error _ => []

/-- Whether `match_opcode` succeeds on the block. -/
def matchableB (B : Bytes) : Bool :=
  match match_opcode B with
  | .ok _ => true
  | .error _ => false

/-- No adjacent pair of the sequence joins, starting from lookback name
`l`. -/
def noJoinSeq (jp jr : Bool) : List Char → List Bytes → Prop
  | _, [] => True
  | l, b :: t => join2 jp jr (clsOf b) l = false ∧ noJoinSeq jp jr (clsOf b) t

/-- A block list the merger maps to itself: every block matches an opcode
and is nonempty, the head is not raster-joinable (the `None` lookback
raises `TypeError` there otherwise), and no adjacent pair joins. -/
def goodList (jp jr : Bool) (Bs : List Bytes) : Prop :=
  (∀ B ∈ Bs, matchableB B = true ∧ B ≠ []) ∧
  (match Bs with
   | [] => True
   | b :: t => (jr && hasRaster (clsOf b)) = false ∧
       noJoinSeq jp jr (clsOf b) t)

/-- The buffer head name and the `last_opcode` lookback agree on the two
join tests. -/
def bufCompat (f l : List Char) : Prop :=
  ((f == preambleChars) = (l == preambleChars)) ∧
  (hasRaster f = hasRaster l)

/-- The merger loop invariant: before the first instruction everything is
empty; afterwards the buffer is a nonempty matchable block whose name is
join-equivalent to `last_opcode`, and flushing the buffer now would give a
self-mapped block list. -/
def StInv (jp jr : Bool) : MState → Prop
  | ⟨out, none, buf⟩ => out = [] ∧ buf = []
  | ⟨out, some l, buf⟩ =>
    buf ≠ [] ∧ matchableB buf = true ∧ bufCompat (clsOf buf) l ∧
    goodList jp jr (out ++ [buf])

/-- The class of the last block, with `l` as the fallback for an empty
list. -/
def lastClsOf (l : List Char) : List Bytes → List Char
  | [] => l
  | b :: t => lastClsOf (clsOf b) t

/-- Modelled from the spec: `BrotherQLRaster.add_invalidate` lives in
`brother_ql/raster.py`, which is not part of this source tree.  Per the
glossary an invalidate block is "a leading run of zero bytes used to
flush/reset the printer's command buffer"; the opcode table documents
200-300 `0x00` bytes and the model table's default `num_invalidate_bytes`
is 200. -/
def invalidateBlock : Bytes := List.replicate 200 0

/-- Modelled from the spec: `BrotherQLRaster.add_initialize`
(`brother_ql/raster.py`, not in this source tree): the `init` opcode
`1B 40`. -/
def initializeBlock : Bytes := [0x1b, 0x40]

/-- Modelled from the spec: `BrotherQLRaster.add_status_information`
(`brother_ql/raster.py`, not in this source tree): the status request
control block `1B 69 53` (spec §6). -/
def statusRequestBlock : Bytes := [0x1b, 0x69, 0x53]

/-- The mutable state of a `BrotherPrintQueue` session, plus the transport
write log (`writes`: the byte blocks passed to `printer.write`, in order).
The transport read side is modelled separately as a script: the list of
byte strings that successive `printer.read()` calls return (an exhausted
script reads as empty forever). -/
structure Session where
  queue : List Bytes
  printing : Bool
  status : Option Response
  ready : Bool
  last_error : List (List Char)
  page_count : Nat
  writes : List Bytes
deriving Repr

/-- The read/decode loop of `_validate_status` (`print_queue.py` lines
162-173): read; an empty read sleeps 0.1 s and retries; a nonempty read is
decoded, breaking the loop on success; `except ValueError` would retry
after a `ValueError`, but `interpret_response` raises `NameError`-class
errors, which therefore propagate.  The wall-clock deadline is modelled by
a budget of iterations: `timeout` seconds admit at most `10 * timeout`
sleeps of 0.1 s. -/
def waitResponse : Nat → List Bytes → Except PyErr (Option Response × List Bytes)
  | 0, sc => .ok (none, sc)
  | budget + 1, [] => waitResponse budget []
  | budget + 1, d :: rest =>
    if d.isEmpty then waitResponse budget rest
    else
      match interpret_response d with
      | .ok r => .ok (some r, rest)
      | .error err =>
        if err.isValueError then waitResponse budget rest
        else .error err

/-- `BrotherPrintQueue._validate_status` (`print_queue.py` lines 137-195).

With `request=True` a non-wildcard expected status raises
`AttributeError` (before anything is written); otherwise the expected
status becomes 0 and the status request block is written.  After the read
loop, a timeout (no decoded frame) returns `match = False`.  For a decoded
response, Python first stores it in `self.status`/`self.last_error` and
computes `status_match` from the existing `"status_code"` key — and then
raises `KeyError`: the phase comparison at line 181 (when `phase != -1`)
and the eagerly evaluated debug f-string at lines 183-185 (always) both
read `response["phase_code"]`, a key `interpret_response` never puts in
its dict (it stores `phase_type` instead).  So a decoded frame never
yields a return value, and the state recorded just before the raise is
not observable through the `Except` result. -/
def validate_status (s : Session) (sc : List Bytes) (status _phase : Int)
    (timeout : Nat) (request : Bool) :
    Except PyErr (Bool × Session × List Bytes) :=
  if request && status != -1 then .error .attributeError
  else
    let s := if request
      then { s with writes := s.writes ++ [statusRequestBlock] } else s
    match waitResponse (10 * timeout) sc with
    | .error err => .error err
    | .ok (none, sc2) => .ok (false, s, sc2)
    | .ok (some _r, _sc2) => .error .keyError

/-- A session as fresh as a new `BrotherPrintQueue` before its constructor
runs `initialize()`. -/
def freshSession : Session :=
  { queue := [], printing := false, status := none, ready := false,
    last_error := [], page_count := 0, writes := [] }

/-- `BrotherPrintQueue.initialize` (`print_queue.py` lines 29-46): write
the invalidate block, then the initialize block (two successive
`printer.write` calls, appended to the log in order), then a status
round-trip requesting phase 0 with a 2-second timeout; `ready` becomes
its outcome, `printing` resets, `page_count` is refreshed. -/
def initializeSession (s : Session) (sc : List Bytes) :
    Except PyErr (Session × List Bytes) :=
  match validate_status
      { s with writes := s.writes ++ [invalidateBlock] ++ [initializeBlock] }
      sc (-1) 0 2 true with
  | .error err => .error err
  | .ok (ready, s2, sc2) =>
    .ok ({ s2 with printing := false, ready := ready,
                   page_count := s2.queue.length }, sc2)

/-- `BrotherPrintQueue.__init__` (`print_queue.py` lines 15-24): fresh
fields, then an immediate `initialize()` before the constructor
returns. -/
def mkSession (sc : List Bytes) : Except PyErr (Session × List Bytes) :=
  initializeSession freshSession sc

/-- `BrotherPrintQueue._submit_page` (`print_queue.py` lines 99-135).  The
`while not completed` loop runs at most once: a fully confirmed page is
popped and the loop condition exits, any failed confirmation breaks.  It
reads `self._print_queue[0]` (`IndexError` on an empty queue), writes the
page block, then requires the three status confirmations in order.
`_validate_status` never touches the queue, so the `popleft()` on full
confirmation removes exactly the page just written. -/
def submit_page (s : Session) (sc : List Bytes) :
    Except PyErr (Bool × Session × List Bytes) :=
  match s.queue with
  | [] => .error .indexError
  | page :: restQ =>
    let s := { s with writes := s.writes ++ [page] }
    match validate_status s sc 6 1 2 false with
    | .error err => .error err
    | .ok (sts_started, s, sc) =>
      if sts_started then
        match validate_status s sc 1 1 10 false with
        | .error err => .error err
        | .ok (sts_printed, s, sc) =>
          if sts_printed then
            match validate_status s sc 6 0 2 false with
            | .error err => .error err
            | .ok (sts_ready, s, sc) =>
              if sts_ready then
                .ok (true, { s with queue := restQ,
                                    page_count := restQ.length }, sc)
              else .ok (false, { s with page_count := s.queue.length }, sc)
          else .ok (false, { s with page_count := s.queue.length }, sc)
      else .ok (false, { s with page_count := s.queue.length }, sc)

/-- The `while len(self._print_queue) > 0` loop of `submit`
(`print_queue.py` lines 71-77), with fuel: every successful
`_submit_page` pops exactly one page and any failure breaks, so with fuel
equal to the initial queue length, fuel exhaustion coincides with the
empty-queue exit. -/
def submitLoop : Nat → Session → List Bytes →
    Except PyErr (Session × List Bytes)
  | 0, s, sc => .ok (s, sc)
  | fuel + 1, s, sc =>
    if s.queue.isEmpty then .ok (s, sc)
    else
      match submit_page s sc with
      | .error err => .error err
      | .ok (printed, s2, sc2) =>
        if printed then submitLoop fuel s2 sc2 else .ok (s2, sc2)

/-- `BrotherPrintQueue.submit(clear_on_failure)` (`print_queue.py` lines
62-97): re-initialize when not ready; set `printing`; submit pages in
FIFO order until a failure; `completed` is decided by the queue length
BEFORE the `clear_on_failure` handling; clear the residual queue if
requested; refresh `ready` with a final status round-trip (phase 0, 2 s);
reset `printing`; return `completed`. -/
def submit (s : Session) (sc : List Bytes) (clear_on_failure : Bool) :
    Except PyErr (Bool × Session × List Bytes) :=
  match (if !s.ready then initializeSession s sc else .ok (s, sc)) with
  | .error err => .error err
  | .ok (s, sc) =>
    let s := { s with printing := true }
    match submitLoop s.queue.length s sc with
    | .error err => .error err
    | .ok (s, sc) =>
      let remaining := s.queue.length
      let completed := remaining == 0
      let s := if remaining != 0 && clear_on_failure
        then { s with queue := [] } else s
      match validate_status s sc (-1) 0 2 true with
      | .error err => .error err
      | .ok (ready, s, sc) =>
        .ok (completed, { s with ready := ready, printing := false }, sc)

/-- A 32-byte status frame: magic, zeros, status byte at offset 18, phase
byte at offset 19, zeros. -/
def frameWith (st ph : Nat) : Bytes :=
  [0x80, 0x20, 0x42] ++ List.replicate 15 0 ++ [st, ph] ++
    List.replicate 12 0

/-- A 32-byte frame with valid magic and the unrecognized media type code
`0x02` at offset 11, all other payload bytes zero. -/
def frameUnknownMedia : Bytes :=
  [0x80, 0x20, 0x42] ++ List.replicate 8 0 ++ [0x02] ++ List.replicate 20 0

/-- A ready session with two queued pages. -/
def sessionTwoPages : Session :=
  { queue := [[0x5a], [0x1A]], printing := false, status := none,
    ready := true, last_error := [], page_count := 2, writes := [] }

/-- The C4 transport script: the three confirmations for page 1 (started,
completed, ready) followed by the started-confirmation for page 2, then
nothing. -/
def scriptFourFrames : List Bytes :=
  [frameWith 6 1, frameWith 1 1, frameWith 6 0, frameWith 6 1]

/-- A ready session with one queued page. -/
def sessionOnePage : Session :=
  { queue := [[0x5a]], printing := false, status := none, ready := true,
    last_error := [], page_count := 1, writes := [] }

/-- A ready session with an empty queue. -/
def sessionEmptyReady : Session :=
  { queue := [], printing := false, status := none, ready := true,
    last_error := [], page_count := 0, writes := [] }

/-- The session state `submit sessionEmptyReady [] false` returns. -/
def sessionEmptyOut : Session :=
  { queue := [], printing := false, status := none, ready := false,
    last_error := [], page_count := 0, writes := [statusRequestBlock] }

/-- The session state `mkSession []` returns. -/
def mkOut : Session :=
  { queue := [], printing := false, status := none, ready := false,
    last_error := [], page_count := 0,
    writes := [invalidateBlock, initializeBlock, statusRequestBlock] }

/-! ## Theorems -/

theorem listPre_iff {α : Type} [DecidableEq α] :
    ∀ (a b : List α), listPre a b = true ↔ ∃ t, b = a ++ t := by
  intro a
  induction a with
  | nil =>
    intro b
    simp [listPre]
  | cons x xs ih =>
    intro b
    cases b with
    | nil =>
      simp [listPre]
    | cons y ys =>
      constructor
      · intro h
        simp only [listPre] at h
        split at h
        · next hxy =>
          obtain ⟨t, ht⟩ := (ih ys).mp h
          exact ⟨t, by simp [hxy, ht]⟩
        · exact absurd h (by simp)
      · rintro ⟨t, ht⟩
        simp only [List.cons_append, List.cons.injEq] at ht
        obtain ⟨rfl, rfl⟩ := ht
        simp only [listPre, if_pos rfl]
        exact (ih (xs ++ t)).mpr ⟨t, rfl⟩

theorem listPre_append_right {α : Type} [DecidableEq α] {a b : List α}
    (c : List α) (h : listPre a b = true) : listPre a (b ++ c) = true := by
  obtain ⟨t, rfl⟩ := (listPre_iff a b).mp h
  exact (listPre_iff a _).mpr ⟨t ++ c, by simp⟩

theorem listPre_length_le {α : Type} [DecidableEq α] {a b : List α}
    (h : listPre a b = true) : a.length ≤ b.length := by
  obtain ⟨t, rfl⟩ := (listPre_iff a b).mp h
  simp

theorem listPre_comparable {α : Type} [DecidableEq α] :
    ∀ (d a b : List α), listPre a d = true → listPre b d = true →
    listPre a b = true ∨ listPre b a = true := by
  intro d
  induction d with
  | nil =>
    intro a b ha _
    cases a with
    | nil => left; simp [listPre]
    | cons x xs => simp [listPre] at ha
  | cons y ys ih =>
    intro a b ha hb
    cases a with
    | nil => left; simp [listPre]
    | cons x xs =>
      cases b with
      | nil => right; simp [listPre]
      | cons z zs =>
        simp only [listPre] at ha hb
        split at ha
        · next hx =>
          split at hb
          · next hz =>
            subst hx; subst hz
            rcases ih xs zs ha hb with h | h
            · left; simp [listPre, h]
            · right; simp [listPre, h]
          · exact absurd hb (by simp)
        · exact absurd ha (by simp)

/-- Distinct opcode signatures are never a head of one another, so at most
one table row can match any stream. -/
theorem opcode_sig_uniq :
    ∀ e1 ∈ OPCODES, ∀ e2 ∈ OPCODES,
      listPre e1.sig e2.sig = true → e1 = e2 := by decide

theorem opcodes_nodup : OPCODES.Nodup := by decide

theorem opcode_sig_nonempty : ∀ e ∈ OPCODES, 1 ≤ e.sig.length := by decide

theorem filter_eq_singleton {α : Type} {p : α → Bool} :
    ∀ {l : List α} {a : α}, l.Nodup → a ∈ l → p a = true →
      (∀ b ∈ l, p b = true → b = a) → l.filter p = [a] := by
  intro l
  induction l with
  | nil => intro a _ ha _ _; cases ha
  | cons h t ih =>
    intro a hnd hmem hpa huniq
    rcases List.mem_cons.mp hmem with rfl | hat
    · rw [List.filter_cons_of_pos hpa]
      have : t.filter p = [] := by
        rw [List.filter_eq_nil_iff]
        intro b hb hpb
        have := huniq b (List.mem_cons_of_mem _ hb) hpb
        subst this
        exact (List.nodup_cons.mp hnd).1 hb
      rw [this]
    · have hph : p h = false := by
        by_contra hc
        have : p h = true := by
          cases hp : p h
          · exact absurd hp hc
          · rfl
        have := huniq h (List.mem_cons_self _ _) this
        subst this
        exact (List.nodup_cons.mp hnd).1 hat
      rw [List.filter_cons_of_neg (by simp [hph])]
      exact ih (List.nodup_cons.mp hnd).2 hat hpa
        (fun b hb hpb => huniq b (List.mem_cons_of_mem _ hb) hpb)

/-- If a table row's signature heads the stream, `match_opcode` returns
exactly that row. -/
theorem match_opcode_ok {data : Bytes} {e : OpcodeEntry}
    (he : e ∈ OPCODES) (hp : listPre e.sig data = true) :
    match_opcode data = .ok e := by
  unfold match_opcode
  have : OPCODES.filter (fun e2 => listPre e2.sig data) = [e] := by
    refine filter_eq_singleton opcodes_nodup he hp ?_
    intro b hb hpb
    rcases listPre_comparable data b.sig e.sig hpb hp with h | h
    · exact opcode_sig_uniq b hb e he h
    · exact (opcode_sig_uniq e he b hb h).symm
  rw [this]

/-- Conversely, a successful `match_opcode` yields a table row whose
signature heads the stream. -/
theorem match_opcode_ok_elim {data : Bytes} {e : OpcodeEntry}
    (h : match_opcode data = .ok e) :
    e ∈ OPCODES ∧ listPre e.sig data = true := by
  unfold match_opcode at h
  rcases hf : OPCODES.filter (fun e2 => listPre e2.sig data) with _ | ⟨x, t⟩
  · rw [hf] at h; cases h
  · cases t with
    | nil =>
      rw [hf] at h
      have hxe : x = e := by injection h
      have hx : x ∈ OPCODES.filter (fun e2 => listPre e2.sig data) := by
        rw [hf]; exact List.mem_cons_self x []
      have := List.mem_filter.mp hx
      exact ⟨hxe ▸ this.1, hxe ▸ this.2⟩
    | cons y t2 =>
      rw [hf] at h; cases h

/-- A successful match survives appending bytes on the right. -/
theorem match_opcode_append {B : Bytes} {e : OpcodeEntry}
    (h : match_opcode B = .ok e) (X : Bytes) :
    match_opcode (B ++ X) = .ok e := by
  obtain ⟨he, hp⟩ := match_opcode_ok_elim h
  exact match_opcode_ok he (listPre_append_right X hp)

/-- A stream with a successful match is nonempty. -/
theorem match_opcode_ne_nil {B : Bytes} {e : OpcodeEntry}
    (h : match_opcode B = .ok e) : B ≠ [] := by
  obtain ⟨he, hp⟩ := match_opcode_ok_elim h
  have h1 := opcode_sig_nonempty e he
  have h2 := listPre_length_le hp
  intro hB
  subst hB
  have h3 : e.sig.length ≤ 0 := by simpa using h2
  omega

theorem except_toOption_eq_some {ε α : Type} {x : Except ε α} {a : α} :
    x.toOption = some a ↔ x = .ok a := by
  cases x <;> simp [Except.toOption]

theorem wfInstr_elim {i : Bytes} (h : wfInstr i = true) :
    ∃ e ∈ OPCODES, listPre e.sig i = true ∧ numBytes e i = .ok i.length := by
  obtain ⟨e, he, hp⟩ := List.any_eq_true.mp h
  simp only [Bool.and_eq_true, beq_iff_eq] at hp
  obtain ⟨h1, h2⟩ := hp
  exact ⟨e, he, h1, except_toOption_eq_some.mp h2⟩

/-- The chunker length rule only inspects header bytes inside the
instruction itself, so it is unchanged by whatever follows the
instruction in the stream. -/
theorem numBytes_append {e : OpcodeEntry} {i : Bytes} (r : Bytes)
    (h : numBytes e i = .ok i.length) : numBytes e (i ++ r) = .ok i.length := by
  unfold numBytes at h ⊢
  split at h
  · next hfix => rw [if_pos hfix]; exact h
  · next hfix =>
    rw [if_neg hfix]
    split at h
    · next hql =>
      rw [if_pos hql]
      cases hv : i[2]? with
      | none => rw [hv] at h; cases h
      | some v =>
        rw [hv] at h
        have h2 : 2 < i.length := (List.getElem?_eq_some_iff.mp hv).1
        rw [List.getElem?_append_left h2, hv]
        exact h
    · next hql =>
      rw [if_neg hql]
      split at h
      · next hpt =>
        rw [if_pos hpt]
        cases hv1 : i[1]? with
        | none => rw [hv1] at h; cases h
        | some v1 =>
          cases hv2 : i[2]? with
          | none => rw [hv1, hv2] at h; cases h
          | some v2 =>
            rw [hv1, hv2] at h
            have h1 : 1 < i.length := (List.getElem?_eq_some_iff.mp hv1).1
            have h2 : 2 < i.length := (List.getElem?_eq_some_iff.mp hv2).1
            rw [List.getElem?_append_left h1, List.getElem?_append_left h2,
              hv1, hv2]
            exact h
      · next hpt =>
        rw [if_neg hpt]
        exact h

/-- On a stream that is a concatenation of well-formed instructions, the
chunker loop splits off exactly those instructions, for any sufficient
fuel and either error policy. -/
theorem chunkerGo_stream (raiseExc : Bool) :
    ∀ (instrs : List Bytes) (fuel : Nat),
      (∀ i ∈ instrs, wfInstr i = true) →
      instrs.flatten.length ≤ fuel →
      chunkerGo raiseExc fuel instrs.flatten = .ok instrs := by
  intro instrs
  induction instrs with
  | nil =>
    intro fuel _ _
    cases fuel <;> simp [chunkerGo]
  | cons i rest ih =>
    intro fuel h hf
    obtain ⟨e, he, hpre, hlen⟩ := wfInstr_elim (h i (List.mem_cons_self i rest))
    have hi : i ≠ [] := by
      intro hnil
      subst hnil
      have h1 := opcode_sig_nonempty e he
      have h2 : e.sig.length ≤ 0 := by simpa using listPre_length_le hpre
      omega
    obtain ⟨a, t, rfl⟩ := List.exists_cons_of_ne_nil hi
    have hflat : ((a :: t) :: rest).flatten = a :: (t ++ rest.flatten) := by
      simp
    rw [hflat] at hf ⊢
    cases fuel with
    | zero => simp at hf
    | succ f =>
      have hm : match_opcode (a :: (t ++ rest.flatten)) = .ok e := by
        have : a :: (t ++ rest.flatten) = (a :: t) ++ rest.flatten := by simp
        rw [this]
        exact match_opcode_append (match_opcode_ok he hpre) rest.flatten
      have hn : numBytes e (a :: (t ++ rest.flatten)) = .ok (a :: t).length := by
        have : a :: (t ++ rest.flatten) = (a :: t) ++ rest.flatten := by simp
        rw [this]
        exact numBytes_append rest.flatten hlen
      have htake : (a :: (t ++ rest.flatten)).take (a :: t).length = a :: t := by
        have : a :: (t ++ rest.flatten) = (a :: t) ++ rest.flatten := by simp
        rw [this]
        exact List.take_left (a :: t) rest.flatten
      have hdrop : (a :: (t ++ rest.flatten)).drop (a :: t).length = rest.flatten := by
        have : a :: (t ++ rest.flatten) = (a :: t) ++ rest.flatten := by simp
        rw [this]
        exact List.drop_left (a :: t) rest.flatten
      have hrest : chunkerGo raiseExc f rest.flatten = .ok rest := by
        refine ih f (fun j hj => h j (List.mem_cons_of_mem _ hj)) ?_
        have hx : t.length + (List.map List.length rest).sum ≤ f := by
          simpa using hf
        have hy : rest.flatten.length = (List.map List.length rest).sum := by
          simp
        omega
      simp only [chunkerGo, hm, hn, hrest, htake, hdrop]

/-- Claim C3: for every input stream formed by concatenating well-formed
instructions per the Opcode Table, `chunker` yields exactly those
instructions (so their count and concatenation are preserved, and each
yielded instruction obeys the declared length rule carried by
`wfInstr`). -/
theorem chunker_splits_wellformed_stream (instrs : List Bytes)
    (h : ∀ i ∈ instrs, wfInstr i = true) :
    chunker instrs.flatten false = .ok instrs :=
  chunkerGo_stream false instrs instrs.flatten.length h (Nat.le_refl _)

/-- Witness for C3 at a concrete three-instruction stream:
`init`, a compressed-length `raster QL` line, and `compression`. -/
theorem chunker_splits_wellformed_stream_witness :
    (∀ i ∈ [[0x1b, 0x40], [0x67, 0x00, 0x02, 0xAA, 0xBB], [0x4D, 0x02]],
        wfInstr i = true) ∧
    chunker [0x1b, 0x40, 0x67, 0x00, 0x02, 0xAA, 0xBB, 0x4D, 0x02] false =
      .ok [[0x1b, 0x40], [0x67, 0x00, 0x02, 0xAA, 0xBB], [0x4D, 0x02]] :=
  ⟨by decide, by
    have h := chunker_splits_wellformed_stream
      [[0x1b, 0x40], [0x67, 0x00, 0x02, 0xAA, 0xBB], [0x4D, 0x02]] (by decide)
    simpa using h⟩

set_option maxRecDepth 4096 in
/-- The sign test of the decoder: `num = rpl[index]`, and `num & 0x80`
nonzero makes `num = num - 0x100` negative.  For actual bytes (`c < 256`)
this is exactly `128 ≤ c`, which is the form used in `rle_decode_go`. -/
theorem sign_bit_iff : ∀ c : Nat, c < 256 → ((c &&& 0x80 ≠ 0) ↔ 128 ≤ c) := by
  decide

theorem countRun_take : ∀ (rest : Bytes) (b : Nat) (n : Nat),
    n ≤ countRun b rest → rest.take n = List.replicate n b := by
  intro rest
  induction rest with
  | nil =>
    intro b n h
    simp [countRun] at h
    simp [h]
  | cons x xs ih =>
    intro b n h
    simp only [countRun] at h
    split at h
    · next hx =>
      cases n with
      | zero => simp
      | succ m =>
        subst hx
        simp only [List.take_succ_cons, List.replicate_succ]
        rw [ih x m (by omega)]
    · have : n = 0 := by omega
      simp [this]

/-- Decoding inverts the reference encoder, for any sufficient fuel on
either side. -/
theorem rle_decode_go_encode_go :
    ∀ (n : Nat) (row : Bytes) (fe fd : Nat), row.length ≤ n →
      row.length ≤ fe → (rle_encode_go fe row).length ≤ fd →
      rle_decode_go fd (rle_encode_go fe row) = .ok row := by
  intro n
  induction n with
  | zero =>
    intro row fe fd h _ _
    have hrow : row = [] := by
      cases row with
      | nil => rfl
      | cons a t => simp at h
    subst hrow
    cases fe <;> cases fd <;> simp [rle_encode_go, rle_decode_go]
  | succ m ih =>
    intro row fe fd h hfe hfd
    cases row with
    | nil =>
      cases fe <;> cases fd <;> simp [rle_encode_go, rle_decode_go]
    | cons b rest =>
      cases fe with
      | zero => simp at hfe
      | succ fe2 =>
        simp only [rle_encode_go]
        simp only [rle_encode_go] at hfd
        split at hfd
        · next hrun =>
          rw [if_pos hrun]
          have hk2 : 2 ≤ min (countRun b rest + 1) 129 := by omega
          have hk129 : min (countRun b rest + 1) 129 ≤ 129 := by omega
          have hkrun : min (countRun b rest + 1) 129 - 1 ≤ countRun b rest := by
            omega
          cases fd with
          | zero => simp at hfd
          | succ fd2 =>
            simp only [rle_decode_go,
              if_pos (show 128 ≤ 257 - min (countRun b rest + 1) 129 by omega)]
            rw [ih (rest.drop (min (countRun b rest + 1) 129 - 1)) fe2 fd2
              (by simp only [List.length_drop, List.length_cons] at h ⊢; omega)
              (by simp only [List.length_drop, List.length_cons] at hfe ⊢; omega)
              (by simp only [List.length_cons] at hfd; omega)]
            have h257 : 257 - (257 - min (countRun b rest + 1) 129) =
                min (countRun b rest + 1) 129 := by omega
            rw [h257]
            have hrepl : List.replicate (min (countRun b rest + 1) 129) b =
                b :: List.replicate (min (countRun b rest + 1) 129 - 1) b := by
              cases hmk : min (countRun b rest + 1) 129 with
              | zero => omega
              | succ j => simp [List.replicate_succ]
            rw [hrepl, ← countRun_take rest b _ hkrun]
            simp [List.take_append_drop]
        · next hrun =>
          rw [if_neg hrun]
          cases fd with
          | zero => simp at hfd
          | succ fd2 =>
            simp only [rle_decode_go, if_neg (show ¬ 128 ≤ 0 by omega)]
            simp only [Nat.zero_add, List.take_succ_cons, List.take_zero,
              List.drop_succ_cons, List.drop_zero]
            rw [ih rest fe2 fd2
              (by simp only [List.length_cons] at h; omega)
              (by simp only [List.length_cons] at hfe; omega)
              (by simp only [List.length_cons] at hfd; omega)]
            rfl

/-- Counterexample to C6 as stated over every row: the reference encoder
maps the empty row to the empty compressed payload, and the decoder, which
reads `rpl[0]` before any bounds check, raises `IndexError` on it instead
of returning the empty row. -/
theorem rle_roundtrip_fails_on_empty_row :
    rle_encode [] = [] ∧ rle_decode (rle_encode []) = .error .indexError :=
  ⟨rfl, rfl⟩

/-- Claim C6 (amended to nonempty rows): encoding any nonempty row of
bytes with the reference run-length encoder and then decoding with the
decoder of `analyse` yields the original row; this covers all-literal,
all-repeat and mixed rows, including runs of length 128. -/
theorem rle_roundtrip_nonempty (row : Bytes) (h1 : row ≠ [])
    (h2 : ∀ x ∈ row, x < 256) :
    rle_decode (rle_encode row) = .ok row := by
  obtain ⟨b, t, rfl⟩ := List.exists_cons_of_ne_nil h1
  have hgo := rle_decode_go_encode_go (b :: t).length (b :: t)
    (b :: t).length (rle_encode_go (b :: t).length (b :: t)).length
    (Nat.le_refl _) (Nat.le_refl _) (Nat.le_refl _)
  cases hE : rle_encode (b :: t) with
  | nil =>
    exfalso
    unfold rle_encode at hE
    simp only [List.length_cons, rle_encode_go] at hE
    split at hE <;> simp at hE
  | cons c cs =>
    rw [show rle_decode (c :: cs) = rle_decode_go (c :: cs).length (c :: cs)
      from rfl]
    rw [← hE]
    unfold rle_encode
    exact hgo

/-- Witness for C6 at a maximum-length run: 128 copies of `0xAA` followed
by a lone `0x01`. -/
theorem rle_roundtrip_nonempty_witness :
    rle_decode (rle_encode (List.replicate 128 0xAA ++ [0x01])) =
      .ok (List.replicate 128 0xAA ++ [0x01]) :=
  rle_roundtrip_nonempty _ (by simp) (by
    intro x hx
    rcases List.mem_append.mp hx with h | h
    · rw [List.eq_of_mem_replicate h]; omega
    · simp at h; omega)

theorem matchableB_elim {B : Bytes} (h : matchableB B = true) :
    ∃ e, match_opcode B = .ok e ∧ clsOf B = e.name := by
  unfold matchableB at h
  cases hmo : match_opcode B with
  | ok e =>
    refine ⟨e, rfl, ?_⟩
    unfold clsOf
    rw [hmo]
  | error err => rw [hmo] at h; cases h

theorem matchableB_intro {B : Bytes} {e : OpcodeEntry}
    (h : match_opcode B = .ok e) :
    matchableB B = true ∧ clsOf B = e.name := by
  unfold matchableB clsOf
  rw [h]
  exact ⟨rfl, rfl⟩

theorem isEmpty_false_of_ne_nil {α : Type} {l : List α} (h : l ≠ []) :
    l.isEmpty = false := by
  cases l with
  | nil => exact absurd rfl h
  | cons a t => rfl

/-- `join2` only looks at its last argument through the `== 'preamble'`
and `'raster' in` tests. -/
theorem join2_congr {jp jr : Bool} {cur x y : List Char}
    (h1 : (x == preambleChars) = (y == preambleChars))
    (h2 : hasRaster x = hasRaster y) :
    join2 jp jr cur x = join2 jp jr cur y := by
  unfold join2
  rw [h1, h2]

theorem raster_not_preamble {x : List Char} (h : hasRaster x = true) :
    (x == preambleChars) = false := by
  cases hb : x == preambleChars
  · rfl
  · exfalso
    have hx : x = preambleChars := eq_of_beq hb
    subst hx
    rw [show hasRaster preambleChars = false from by decide] at h
    cases h

theorem noJoinSeq_replace_last {jp jr : Bool} :
    ∀ (t : List Bytes) (l : List Char) {B C : Bytes},
      noJoinSeq jp jr l (t ++ [B]) → clsOf C = clsOf B →
      noJoinSeq jp jr l (t ++ [C]) := by
  intro t
  induction t with
  | nil =>
    intro l B C h hc
    obtain ⟨h1, _⟩ := h
    exact ⟨by rw [hc]; exact h1, trivial⟩
  | cons x xs ih =>
    intro l B C h hc
    obtain ⟨h1, h2⟩ := h
    exact ⟨h1, ih _ h2 hc⟩

theorem lastClsOf_append_last :
    ∀ (t : List Bytes) (l : List Char) (B : Bytes),
      lastClsOf l (t ++ [B]) = clsOf B := by
  intro t
  induction t with
  | nil => intro l B; rfl
  | cons x xs ih => intro l B; exact ih (clsOf x) B

theorem noJoinSeq_snoc {jp jr : Bool} :
    ∀ (t : List Bytes) (l : List Char) {C : Bytes},
      noJoinSeq jp jr l t →
      join2 jp jr (clsOf C) (lastClsOf l t) = false →
      noJoinSeq jp jr l (t ++ [C]) := by
  intro t
  induction t with
  | nil =>
    intro l C _ hj
    exact ⟨hj, trivial⟩
  | cons x xs ih =>
    intro l C h hj
    obtain ⟨h1, h2⟩ := h
    exact ⟨h1, ih _ h2 hj⟩

theorem goodList_replace_last {jp jr : Bool} {acc : List Bytes} {B C : Bytes}
    (hg : goodList jp jr (acc ++ [B])) (hC1 : matchableB C = true)
    (hC2 : C ≠ []) (hcls : clsOf C = clsOf B) :
    goodList jp jr (acc ++ [C]) := by
  obtain ⟨hall, hshape⟩ := hg
  constructor
  · intro X hX
    rcases List.mem_append.mp hX with h | h
    · exact hall X (List.mem_append.mpr (Or.inl h))
    · simp at h
      subst h
      exact ⟨hC1, hC2⟩
  · cases acc with
    | nil =>
      simp only [List.nil_append] at hshape ⊢
      obtain ⟨hh, _⟩ := hshape
      exact ⟨by rw [hcls]; exact hh, trivial⟩
    | cons a t =>
      simp only [List.cons_append] at hshape ⊢
      obtain ⟨hh, hnj⟩ := hshape
      exact ⟨hh, noJoinSeq_replace_last t _ hnj hcls⟩

theorem goodList_snoc {jp jr : Bool} {acc : List Bytes} {B C : Bytes}
    (hg : goodList jp jr (acc ++ [B])) (hC1 : matchableB C = true)
    (hC2 : C ≠ [])
    (hnj : join2 jp jr (clsOf C) (clsOf B) = false) :
    goodList jp jr ((acc ++ [B]) ++ [C]) := by
  obtain ⟨hall, hshape⟩ := hg
  constructor
  · intro X hX
    rcases List.mem_append.mp hX with h | h
    · exact hall X h
    · simp at h
      subst h
      exact ⟨hC1, hC2⟩
  · cases acc with
    | nil =>
      simp only [List.nil_append] at hshape ⊢
      obtain ⟨hh, _⟩ := hshape
      exact ⟨hh, hnj, trivial⟩
    | cons a t =>
      simp only [List.cons_append] at hshape ⊢
      obtain ⟨hh, hn⟩ := hshape
      refine ⟨hh, ?_⟩
      have hlast : lastClsOf (clsOf a) (t ++ [B]) = clsOf B :=
        lastClsOf_append_last t (clsOf a) B
      exact noJoinSeq_snoc (t ++ [B]) (clsOf a) hn (by rw [hlast]; exact hnj)

/-- One merger iteration preserves the loop invariant. -/
theorem mergeStep_inv {jp jr : Bool} {st st2 : MState} {i : Bytes}
    (hinv : StInv jp jr st) (h : mergeStep jp jr st i = .ok st2) :
    StInv jp jr st2 := by
  unfold mergeStep at h
  cases hmo : match_opcode i with
  | error err => rw [hmo] at h; cases h
  | ok e =>
    rw [hmo] at h
    obtain ⟨hmi, hci⟩ := matchableB_intro hmo
    have hine : i ≠ [] := match_opcode_ne_nil hmo
    obtain ⟨o, lo, bf⟩ := st
    cases lo with
    | none =>
      obtain ⟨ho, hb⟩ := hinv
      subst ho hb
      simp only at h
      split at h
      · cases h
      · next hg =>
        have hg2 : (jr && hasRaster e.name) = false := by
          revert hg
          cases jr && hasRaster e.name <;> simp
        injection h with h
        subst h
        refine ⟨hine, hmi, by rw [hci]; exact ⟨rfl, rfl⟩, ?_, ?_⟩
        · intro X hX
          simp at hX
          subst hX
          exact ⟨hmi, hine⟩
        · exact ⟨by rw [hci]; exact hg2, trivial⟩
    | some l =>
      obtain ⟨hbne, hmb, hcompat, hgood⟩ := hinv
      simp only at h
      split at h
      · next hj =>
        injection h with h
        subst h
        obtain ⟨eb, hmob, hclb⟩ := matchableB_elim hmb
        obtain ⟨hmbi, hclbi⟩ := matchableB_intro (match_opcode_append hmob i)
        have hclseq : clsOf (bf ++ i) = clsOf bf := by rw [hclbi, hclb]
        have hj2 :
            (jp && e.name == preambleChars && l == preambleChars) = true ∨
            (jr && hasRaster e.name && hasRaster l) = true := by
          unfold join2 at hj
          exact Bool.or_eq_true _ _ ▸ hj
        have hbine : bf ++ i ≠ [] := by
          intro hc
          exact hbne (List.append_eq_nil.mp hc).1
        refine ⟨hbine, hmbi, ?_, ?_⟩
        · rw [hclseq]
          obtain ⟨h1c, h2c⟩ := hcompat
          rcases hj2 with hA | hB
          · simp only [Bool.and_eq_true] at hA
            obtain ⟨⟨_, hepre⟩, hlpre⟩ := hA
            refine ⟨by rw [h1c, hlpre, hepre], ?_⟩
            rw [h2c, eq_of_beq hlpre, eq_of_beq hepre]
          · simp only [Bool.and_eq_true] at hB
            obtain ⟨⟨_, hre⟩, hrl⟩ := hB
            refine ⟨?_, by rw [h2c, hrl, hre]⟩
            rw [h1c, raster_not_preamble hrl, raster_not_preamble hre]
        · exact goodList_replace_last hgood hmbi hbine hclseq
      · next hj =>
        have hj2 : join2 jp jr e.name l = false := by
          revert hj
          cases join2 jp jr e.name l <;> simp
        injection h with h
        subst h
        rw [isEmpty_false_of_ne_nil hbne]
        refine ⟨hine, hmi, by rw [hci]; exact ⟨rfl, rfl⟩, ?_⟩
        show goodList jp jr ((o ++ [bf]) ++ [i])
        apply goodList_snoc hgood hmi hine
        rw [hci]
        rw [join2_congr hcompat.1 hcompat.2]
        exact hj2

theorem mergeFold_inv {jp jr : Bool} :
    ∀ (chunks : List Bytes) (st stF : MState),
      StInv jp jr st → mergeFold jp jr chunks st = .ok stF →
      StInv jp jr stF := by
  intro chunks
  induction chunks with
  | nil =>
    intro st stF hinv h
    injection h with h
    subst h
    exact hinv
  | cons c cs ih =>
    intro st stF hinv h
    unfold mergeFold at h
    cases hs : mergeStep jp jr st c with
    | error err => rw [hs] at h; cases h
    | ok st2 =>
      rw [hs] at h
      exact ih st2 stF (mergeStep_inv hinv hs) h

/-- From a state with a nonempty buffer, folding a chain of blocks no
adjacent pair of which joins just flushes each block in order. -/
theorem mergeFold_no_join {jp jr : Bool} :
    ∀ (Bs : List Bytes) (st : MState) (l : List Char),
      st.lastOp = some l → st.buf ≠ [] →
      (∀ B ∈ Bs, matchableB B = true ∧ B ≠ []) →
      noJoinSeq jp jr l Bs →
      ∃ stF, mergeFold jp jr Bs st = .ok stF ∧ stF.buf ≠ [] ∧
        stF.out ++ [stF.buf] = st.out ++ [st.buf] ++ Bs := by
  intro Bs
  induction Bs with
  | nil =>
    intro st l h1 h2 _ _
    exact ⟨st, rfl, h2, by simp⟩
  | cons b t ih =>
    intro st l h1 h2 hall hnj
    obtain ⟨hm, hne⟩ := hall b (List.mem_cons_self b t)
    obtain ⟨e, hmo, hcls⟩ := matchableB_elim hm
    obtain ⟨hnjb, hnjt⟩ := hnj
    have hnjb2 : join2 jp jr e.name l = false := by
      rw [← hcls]
      exact hnjb
    have hstep : mergeStep jp jr st b =
        .ok { out := st.out ++ [st.buf], lastOp := some e.name, buf := b } := by
      unfold mergeStep
      rw [hmo, h1]
      simp [hnjb2, isEmpty_false_of_ne_nil h2]
    have hnjt2 : noJoinSeq jp jr e.name t := by rw [← hcls]; exact hnjt
    obtain ⟨stF, hF, hbF, houtF⟩ :=
      ih { out := st.out ++ [st.buf], lastOp := some e.name, buf := b }
        e.name rfl hne (fun B hB => hall B (List.mem_cons_of_mem _ hB)) hnjt2
    refine ⟨stF, ?_, hbF, ?_⟩
    · unfold mergeFold
      rw [hstep]
      exact hF
    · rw [houtF]
      simp

/-- A self-mapped block list really is a fixed point of the merger. -/
theorem merge_fixed_point (jp jr : Bool) (Bs : List Bytes)
    (hg : goodList jp jr Bs) :
    merge_specific_instructions Bs jp jr = .ok Bs := by
  obtain ⟨hall, hshape⟩ := hg
  cases Bs with
  | nil => rfl
  | cons b t =>
    obtain ⟨hhr, hnj⟩ := hshape
    obtain ⟨hm, hne⟩ := hall b (List.mem_cons_self b t)
    obtain ⟨e, hmo, hcls⟩ := matchableB_elim hm
    have hhr2 : (jr && hasRaster e.name) = false := by
      rw [← hcls]
      exact hhr
    have hstep : mergeStep jp jr ⟨[], none, []⟩ b =
        .ok { out := [], lastOp := some e.name, buf := b } := by
      unfold mergeStep
      rw [hmo]
      simp [hhr2]
    have hnj2 : noJoinSeq jp jr e.name t := by
      rw [← hcls]
      exact hnj
    obtain ⟨stF, hF, hbF, houtF⟩ :=
      mergeFold_no_join t { out := [], lastOp := some e.name, buf := b }
        e.name rfl hne (fun B hB => hall B (List.mem_cons_of_mem _ hB)) hnj2
    have hfold : mergeFold jp jr (b :: t) ⟨[], none, []⟩ = .ok stF := by
      unfold mergeFold
      rw [hstep]
      exact hF
    unfold merge_specific_instructions
    rw [hfold]
    show Except.ok (if stF.buf.isEmpty = true then stF.out
      else stF.out ++ [stF.buf]) = Except.ok (b :: t)
    rw [isEmpty_false_of_ne_nil hbF]
    simp only [Bool.false_eq_true, if_false]
    rw [houtF]
    simp

/-- Claim C8: the merger is idempotent — whenever it succeeds, running it
again on its own output returns that output unchanged (already-merged
streams have no further joinable adjacency among consecutive preamble or
raster-named blocks). -/
theorem merge_idempotent (chunks out : List Bytes) (jp jr : Bool)
    (h : merge_specific_instructions chunks jp jr = .ok out) :
    merge_specific_instructions out jp jr = .ok out := by
  unfold merge_specific_instructions at h
  cases hF : mergeFold jp jr chunks ⟨[], none, []⟩ with
  | error err => rw [hF] at h; cases h
  | ok stF =>
    rw [hF] at h
    injection h with h
    have hinv : StInv jp jr stF :=
      mergeFold_inv chunks ⟨[], none, []⟩ stF ⟨rfl, rfl⟩ hF
    obtain ⟨o, lo, bf⟩ := stF
    cases lo with
    | none =>
      obtain ⟨ho, hb⟩ := hinv
      subst ho hb
      simp only [List.isEmpty_nil, if_true] at h
      subst h
      rfl
    | some l =>
      obtain ⟨hbne, hmb, hcompat, hgood⟩ := hinv
      rw [isEmpty_false_of_ne_nil hbne] at h
      simp only [Bool.false_eq_true, if_false] at h
      subst h
      exact merge_fixed_point jp jr (o ++ [bf]) hgood

/-- Witness for C8: merging `init`, `preamble`, `preamble` coalesces the
two preambles, and merging the result again leaves it unchanged. -/
theorem merge_idempotent_witness :
    merge_specific_instructions [[0x1b, 0x40], [0x00, 0x00]] true true =
      .ok [[0x1b, 0x40], [0x00, 0x00]] :=
  merge_idempotent [[0x1b, 0x40], [0x00], [0x00]] _ true true rfl

/-- Claim C9: if the first instruction handed to the merger is
raster-classed (its opcode name contains `"raster"`) and raster joining is
enabled, the merger raises `TypeError`: the `last_opcode` lookback starts
as `None` and `'raster' in None` is a `TypeError`. -/
theorem merge_typeerror_on_leading_raster (i : Bytes) (rest : List Bytes)
    (e : OpcodeEntry) (jp : Bool)
    (h1 : match_opcode i = .ok e) (h2 : hasRaster e.name = true) :
    merge_specific_instructions (i :: rest) jp true = .error .typeError := by
  have hstep : mergeStep jp true ⟨[], none, []⟩ i = .error .typeError := by
    unfold mergeStep
    rw [h1]
    simp [h2]
  have hfold : mergeFold jp true (i :: rest) ⟨[], none, []⟩ =
      .error .typeError := by
    unfold mergeFold
    rw [hstep]
  unfold merge_specific_instructions
  rw [hfold]

/-- Witness for C9 at a lone `raster QL` opcode byte. -/
theorem merge_typeerror_on_leading_raster_witness :
    merge_specific_instructions [[0x67]] true true = .error .typeError :=
  merge_typeerror_on_leading_raster [0x67] []
    ⟨[0x67], "raster QL".toList, -1⟩ true rfl (by decide)

/-- Claim C1 (divergence witness): a single read holding a status frame
with status 6 and phase 1 — exactly what the wait expects — makes
`_validate_status(status=6, phase=1, timeout=2)` raise `KeyError` instead
of returning `True`: the decoded response dict has no `"phase_code"`
key. -/
theorem validate_status_keyerror_on_matching_frame :
    validate_status freshSession [frameWith 6 1] 6 1 2 false =
      .error .keyError := rfl

/-- Claim C5 (divergence witness): a read whose bytes fail to decode (the
single byte `0x80`: short data) raises `NameError` inside
`interpret_response`; `_validate_status` only catches `ValueError`, so the
decode failure propagates out of the wait primitive instead of being
discarded as noise. -/
theorem validate_status_propagates_decode_failure :
    validate_status freshSession [[0x80]] (-1) (-1) 2 false =
      .error .nameError := rfl

/-- Claim C2 (divergence witness): a 32-byte buffer starting with the
magic but carrying the unrecognized media code 0x02 makes
`interpret_response` raise — the `media_type` local is assigned only for
known codes, so building the response dict hits `UnboundLocalError` — 
contradicting decode totality and the non-fatal handling of unknown media
codes. -/
theorem interpret_response_unknown_media_raises :
    frameUnknownMedia.length = 32 ∧
    listPre [0x80, 0x20, 0x42] frameUnknownMedia = true ∧
    interpret_response frameUnknownMedia = .error .unboundLocal :=
  ⟨rfl, rfl, rfl⟩

/-- Claim C4 (divergence witness): with 2 queued pages and scripted reads
satisfying all three confirmations for page 1 (and timing out later),
`submit` raises `KeyError` at the very first decoded frame
(`response["phase_code"]` does not exist) instead of returning
`completed == False` with exactly page 1 removed. -/
theorem submit_raises_in_two_page_scenario :
    submit sessionTwoPages scriptFourFrames false = .error .keyError := rfl

/-- Every normal return of `_validate_status` is a timeout return: the
boolean is `False` and the session differs from the input only in
`status`/`last_error` (unchanged here) and, for a request, the appended
status request write. -/
theorem validate_status_ok_elim {s : Session} {sc : List Bytes}
    {status phase : Int} {t : Nat} {req : Bool} {b : Bool} {s2 : Session}
    {sc2 : List Bytes}
    (h : validate_status s sc status phase t req = .ok (b, s2, sc2)) :
    b = false ∧ s2.queue = s.queue ∧ s2.printing = s.printing ∧
    s2.ready = s.ready ∧
    s2.writes = s.writes ++ (if req then [statusRequestBlock] else []) := by
  unfold validate_status at h
  split at h
  · cases h
  · cases hw : waitResponse (10 * t) sc with
    | error err => rw [hw] at h; cases h
    | ok p =>
      obtain ⟨resp, sc3⟩ := p
      rw [hw] at h
      cases resp with
      | some r => cases h
      | none =>
        injection h with h
        injection h with h1 h2
        injection h2 with h3 h4
        subst h1
        subst h3
        subst h4
        refine ⟨rfl, ?_, ?_, ?_, ?_⟩ <;> cases req <;> simp

/-- Counterexample to C7 as stated: one queued page, an all-silent
transport, `clear_on_failure = true`.  `submit` returns `False` even
though the page queue is empty at the moment it returns, because
`completed` is decided before the residual queue is discarded. -/
theorem submit_false_despite_empty_queue :
    (submit sessionOnePage [] true).toOption.map
      (fun r => (r.1, r.2.1.queue)) = some (false, []) := rfl

/-- Claim C7 (amended): every normal return of `submit` has reset
`printing` to `false`, and the returned boolean is true iff the page
queue was empty at the end of the submission loop, before any
`clear_on_failure` handling: hence a true return implies an empty queue
at return, and with `clear_on_failure = false` the return value is true
exactly when the queue is empty at return. -/
theorem submit_completion_flag_spec (s : Session) (sc : List Bytes)
    (cf : Bool) (b : Bool) (s2 : Session) (sc2 : List Bytes)
    (h : submit s sc cf = .ok (b, s2, sc2)) :
    s2.printing = false ∧ (b = true → s2.queue = []) ∧
    (cf = false → (b = true ↔ s2.queue = [])) := by
  unfold submit at h
  cases hini : (if !s.ready then initializeSession s sc else .ok (s, sc)) with
  | error err => rw [hini] at h; cases h
  | ok p =>
    obtain ⟨sA, scA⟩ := p
    rw [hini] at h
    dsimp only at h
    cases hloop : submitLoop sA.queue.length { sA with printing := true } scA with
    | error err => rw [hloop] at h; cases h
    | ok q =>
      obtain ⟨sB, scB⟩ := q
      rw [hloop] at h
      dsimp only at h
      cases hv : validate_status
          (if (sB.queue.length != 0 && cf) = true then { sB with queue := [] }
            else sB) scB (-1) 0 2 true with
      | error err => rw [hv] at h; cases h
      | ok r3 =>
        obtain ⟨rdy, sC, scC⟩ := r3
        rw [hv] at h
        injection h with h
        injection h with h1 h2
        injection h2 with h3 h4
        subst h1
        subst h3
        subst h4
        obtain ⟨_, hq, _, _, _⟩ := validate_status_ok_elim hv
        refine ⟨rfl, ?_, ?_⟩
        · intro hb
          have hlen : sB.queue.length = 0 := by simpa using hb
          show sC.queue = []
          rw [hq]
          have hcond : (sB.queue.length != 0 && cf) = false := by
            simp [hlen]
          rw [hcond]
          simp
          exact List.length_eq_zero.mp hlen
        · intro hcf
          subst hcf
          have hcond : (sB.queue.length != 0 && false) = false := by simp
          show ((sB.queue.length == 0) = true ↔ sC.queue = [])
          rw [hq, hcond]
          simp [List.length_eq_zero]

/-- Witness for C7 at a ready session with an empty queue and a silent
transport: `submit` returns `true`. -/
theorem submit_completion_flag_spec_witness :
    sessionEmptyOut.printing = false ∧
    (true = true → sessionEmptyOut.queue = []) ∧
    (false = false → (true = true ↔ sessionEmptyOut.queue = [])) :=
  submit_completion_flag_spec sessionEmptyReady [] false true
    sessionEmptyOut [] rfl

/-- Claim C10: a normally returning `BrotherPrintQueue` constructor has
already performed the full initialization sequence as a side effect: its
transport write log holds exactly the invalidate block, the initialize
block and the status request of the round-trip, in that order; the page
queue is empty with `page_count = 0` and `printing = false`; and `ready`
is exactly the boolean outcome of the status round-trip (expected phase
0, timeout 2 seconds) performed on the transport. -/
theorem mkSession_runs_initialization (sc : List Bytes) (s : Session)
    (sc2 : List Bytes) (h : mkSession sc = .ok (s, sc2)) :
    s.writes = [invalidateBlock, initializeBlock, statusRequestBlock] ∧
    s.queue = [] ∧ s.printing = false ∧ s.page_count = 0 ∧
    ∃ s3, validate_status
        { freshSession with
          writes := freshSession.writes ++ [invalidateBlock] ++
            [initializeBlock] }
        sc (-1) 0 2 true = .ok (s.ready, s3, sc2) := by
  unfold mkSession initializeSession at h
  cases hv : validate_status
      { freshSession with
        writes := freshSession.writes ++ [invalidateBlock] ++
          [initializeBlock] }
      sc (-1) 0 2 true with
  | error err => rw [hv] at h; cases h
  | ok p =>
    obtain ⟨rdy, s3, sc3⟩ := p
    rw [hv] at h
    injection h with h
    injection h with h1 h2
    subst h2
    subst h1
    obtain ⟨_, hq, _, _, hw⟩ := validate_status_ok_elim hv
    refine ⟨?_, ?_, rfl, ?_, ⟨s3, rfl⟩⟩
    · show s3.writes = _
      rw [hw]
      rfl
    · show s3.queue = []
      rw [hq]
      rfl
    · show s3.queue.length = 0
      rw [hq]
      rfl

/-- Witness for C10 on a silent transport. -/
theorem mkSession_runs_initialization_witness :
    mkOut.writes = [invalidateBlock, initializeBlock, statusRequestBlock] ∧
    mkOut.queue = [] ∧ mkOut.printing = false ∧ mkOut.page_count = 0 ∧
    ∃ s3, validate_status
        { freshSession with
          writes := freshSession.writes ++ [invalidateBlock] ++
            [initializeBlock] }
        [] (-1) 0 2 true = .ok (mkOut.ready, s3, []) :=
  mkSession_runs_initialization [] mkOut [] rfl
